import Mathlib

/-!
Verification of the File Mover plugin (archive / relocate / frontmatter strip).

The plugin's pure core is embedded below over `List Char` strings:
* `isValidVaultPath` — the path validator;
* `removeRecommendedPathProperty` — the `vault.process` callback that strips
  the configured frontmatter property (with the JS regex and JS
  `String.replace` substitution semantics modelled faithfully);
* `archiveFile`, `relocateFile`, `handleArchive`, `handleRelocate` — the move
  orchestrator, with the host vault as an association list and the host
  rename primitive as an explicit function parameter; each run returns an
  `Outcome` recording the vault, every lookup / folder-creation / rename call,
  the strip invocations and the notices shown.
-/

namespace FileMover

abbrev Path := List Char

/-- The JS whitespace class (regex `\s`, also the `trim` set): space, tab,
line feed, vertical tab, form feed, carriage return, NBSP, Ogham space,
the U+2000–U+200A range, line/paragraph separators, NNBSP, MMSP,
ideographic space and the BOM. -/
def jsWhitespace (c : Char) : Bool :=
  c = ' ' || c = '\t' || c = '\n' || c.toNat = 11 || c.toNat = 12 || c = '\r' ||
  c.toNat = 160 || c.toNat = 5760 || (8192 ≤ c.toNat && c.toNat ≤ 8202) ||
  c.toNat = 8232 || c.toNat = 8233 || c.toNat = 8239 || c.toNat = 8287 ||
  c.toNat = 12288 || c.toNat = 65279

/-- JS `String.prototype.split` with a one-character separator
(`fmBlock.split("\n")`, `filePath.split("/")`): splitting the empty string
yields `[""]`, and a trailing separator yields a trailing empty piece. -/
def splitOnChar (sep : Char) : List Char → List (List Char)
  | [] => [[]]
  | c :: rest =>
    match splitOnChar sep rest with
    | [] => [[c]]
    | l :: ls => if c = sep then [] :: l :: ls else (c :: l) :: ls

/-- The opening fence text `---` followed by a newline, as matched by the
regex `^---\n`. -/
def fenceOpen : Path := ('-' :: '-' :: '-' :: '\n' :: [])

/-- The closing fence text: a newline followed by `---`, as matched by the
regex fragment `\n---`. -/
def fenceClose : Path := ('\n' :: '-' :: '-' :: '-' :: [])

/-- The non-greedy search `([\s\S]*?)\n---`: find the earliest split
`s = block ++ "\n---" ++ tail` and return `(block, tail)`. -/
def findClose : List Char → Option (List Char × List Char)
  | [] => none
  | c :: rest =>
    if c = '\n' ∧ rest.take 3 = ('-' :: '-' :: '-' :: []) then
      some ([], rest.drop 3)
    else
      match findClose rest with
      | none => none
      | some p => some (c :: p.1, p.2)

/-- `content.match` with the pattern `^---\n([\s\S]*?)\n---`: `some (block, tail)` when the
content starts with `---\n` and contains a later `\n---`, where `block` is
the capture group (minimal, the regex is non-greedy) and `tail` is the text
after the match. -/
def matchFrontmatter (content : List Char) : Option (List Char × List Char) :=
  if content.take 4 = fenceOpen then findClose (content.drop 4) else none

/-- The tail of `new RegExp("^" + propName + "\\s*:")` after the literal
field name: greedily skip `\s*`, then require `:`.  Equivalent to the
backtracking semantics because `:` is not a whitespace character. -/
def colonAfterWs : List Char → Bool
  | [] => false
  | c :: rest => if jsWhitespace c then colonAfterWs rest else c == ':'

/-- `line.match(new RegExp("^" + propName + "\\s*:"))` for a field name
without regex metacharacters: the line must start with the field name
itself (no leading whitespace is skipped — the pattern is anchored with
`^`), followed by optional whitespace and a colon. -/
def matchesPropLine (propName line : List Char) : Bool :=
  if line.take propName.length = propName then
    colonAfterWs (line.drop propName.length)
  else false

/-- ECMAScript `GetSubstitution` for the replacement string of
`content.replace` with the pattern `^---\n([\s\S]*?)\n---` and replacement `template`: the regex has one
capture group, the match is anchored at position 0 (so the `$`-backquote
portion `before` is empty), `after` is the text following the match.
`$$`, `$&`, the backquote and quote forms, and `$1` are substituted; any
other `$` sequence is passed through literally (two-digit group references
all exceed the single group count). -/
def getSubstitution (matched before after group1 : List Char) :
    List Char → List Char
  | [] => []
  | c :: [] =>
    if c = '$' then ('$' :: []) else c :: getSubstitution matched before after group1 []
  | c :: d :: rest2 =>
    if c = '$' then
      (if d = '$' then '$' :: getSubstitution matched before after group1 rest2
       else if d = '&' then matched ++ getSubstitution matched before after group1 rest2
       else if d.toNat = 96 then before ++ getSubstitution matched before after group1 rest2
       else if d.toNat = 39 then after ++ getSubstitution matched before after group1 rest2
       else if d = '1' then group1 ++ getSubstitution matched before after group1 rest2
       else '$' :: d :: getSubstitution matched before after group1 rest2)
    else c :: getSubstitution matched before after group1 (d :: rest2)

/-- The `vault.process` callback of `removeRecommendedPathProperty`:
match the leading frontmatter fence (no match: return the content
unchanged); split the captured block on newlines and drop every line
matching `^propName\s*:`; if every surviving line trims to empty, delete
the whole fence plus one optional trailing newline
(`content.replace` with pattern `^---\n[\s\S]*?\n---\n?` and empty replacement — same minimal match);
otherwise replace the fence with `---\n` + the joined surviving lines +
`\n---`, a replacement string passed through JS substitution semantics. -/
def removeRecommendedPathProperty (propName content : List Char) : List Char :=
  match matchFrontmatter content with
  | none => content
  | some (fmBlock, tail) =>
    let lines := splitOnChar '\n' fmBlock
    let filtered := lines.filter (fun line => ! matchesPropLine propName line)
    if filtered.all (fun l => l.all jsWhitespace) then
      match tail with
      | '\n' :: t => t
      | _ => tail
    else
      getSubstitution (fenceOpen ++ fmBlock ++ fenceClose) [] tail fmBlock
        (fenceOpen ++ List.intercalate ('\n' :: []) filtered ++ fenceClose) ++ tail

/-- The test `/^[a-zA-Z]:/.test(filePath)`: a single ASCII letter followed
by a colon at the start of the string. -/
def asciiDriveLetter (c : Char) : Bool :=
  decide (('a' ≤ c ∧ c ≤ 'z') ∨ ('A' ≤ c ∧ c ≤ 'Z'))

/-- Whether the path starts with a Windows drive-letter prefix. -/
def drivePrefixed : Path → Bool
  | c :: d :: _ => asciiDriveLetter c && (d == ':')
  | _ => false

/-- `filePath.startsWith("/")`. -/
def startsWithSlash : Path → Bool
  | [] => false
  | c :: _ => c == '/'

/-- `filePath.replace(/\\/g, "/")` applied characterwise. -/
def backslashToSlash (c : Char) : Char := if c = '\\' then '/' else c

/-- `isValidVaultPath`: reject drive-letter prefixes and absolute paths,
normalize backslashes to slashes, split on `/` and reject any `..`
segment; accept otherwise. -/
def isValidVaultPath (filePath : Path) : Bool :=
  if drivePrefixed filePath || startsWithSlash filePath then false
  else if (splitOnChar '/' (filePath.map backslashToSlash)).any
      (fun s => s == ('.' :: '.' :: [])) then false
  else true

/-- A vault object as seen through `getAbstractFileByPath`: a `TFile` or a
`TFolder`. -/
inductive VObj
  | file
  | folder
deriving DecidableEq

/-- The host vault: an association list from paths to objects; lookup takes
the first entry with the given path. -/
abbrev Vault := List (Path × VObj)

/-- `app.vault.getAbstractFileByPath(p)`. -/
def getAbstractFileByPath (v : Vault) (p : Path) : Option VObj :=
  match v.find? (fun e => e.1 == p) with
  | some e => some e.2
  | none => none

/-- The notices the plugin can show, with their path payloads. -/
inductive NoticeMsg
  | cannotArchiveExists (destination : Path)
  | cannotMoveExists (destination : Path)
  | archived (destination : Path)
  | moved (destination : Path)
  | invalidPath
  | archiveFailed
  | relocateFailed
deriving DecidableEq

/-- What one orchestrator run did: the resulting vault, the existence
lookups, the `createFolder` calls, the `renameFile` calls, the files whose
content was passed to the frontmatter strip, the notices shown, and
whether the confirmation dialog was opened. -/
structure Outcome where
  vault : Vault
  lookups : List Path
  createdFolders : List Path
  renameCalls : List (Path × Path)
  strips : List Path
  notices : List NoticeMsg
  dialogShown : Bool
deriving DecidableEq

/-- The host `fileManager.renameFile` primitive: given the current vault, a
source path and a destination path, either throw (`none`) or produce the
host's next vault state (`some`).  Left abstract because the host, not the
plugin, decides what a rename does to the vault. -/
abbrev RenameFn := Vault → Path → Path → Option Vault

/-- A well-behaved host rename: the destination now holds the file and the
source entry is gone. -/
def idealRename : RenameFn := fun v src dest =>
  some ((dest, VObj.file) :: v.filter (fun e => ! (e.1 == src)))

/-- A host rename that does not leave a file object at the destination:
after it runs, the destination path resolves to a folder.  Used to witness
the post-rename re-resolution behaviour of `relocateFile`. -/
def strayRename : RenameFn := fun _ _ _ =>
  some (((('b' :: []) : Path), VObj.folder) :: [])

/-- The loop body of `ensureParentFolders`: walk the parent segments,
extending `current` (JS truthiness: an empty `current` is replaced, not
extended), look each prefix up and create a folder when absent.  Returns
(vault, lookup calls, createFolder calls). -/
def ensureLoop (v : Vault) (current : Path) :
    List Path → Vault × List Path × List Path
  | [] => (v, [], [])
  | part :: rest =>
    let current' := if current = [] then part else current ++ '/' :: part
    match getAbstractFileByPath v current' with
    | some _ =>
      let r := ensureLoop v current' rest
      (r.1, current' :: r.2.1, r.2.2)
    | none =>
      let r := ensureLoop ((current', VObj.folder) :: v) current' rest
      (r.1, current' :: r.2.1, current' :: r.2.2)

/-- `ensureParentFolders`: split the destination on `/`, drop the filename,
and create the missing prefixes shallowest-first. -/
def ensureParentFolders (v : Vault) (filePath : Path) :
    Vault × List Path × List Path :=
  ensureLoop v [] ((splitOnChar '/' filePath).dropLast)

/-- `archiveFile`: abort with a notice when the destination exists;
otherwise ensure parent folders and attempt the rename, reporting success
or the caught failure. -/
def archiveFile (rename : RenameFn) (v : Vault) (filePath destination : Path) :
    Outcome :=
  match getAbstractFileByPath v destination with
  | some _ =>
    ⟨v, [destination], [], [], [], [NoticeMsg.cannotArchiveExists destination], false⟩
  | none =>
    match rename (ensureParentFolders v destination).1 filePath destination with
    | none =>
      ⟨(ensureParentFolders v destination).1,
        destination :: (ensureParentFolders v destination).2.1,
        (ensureParentFolders v destination).2.2, [(filePath, destination)], [],
        [NoticeMsg.archiveFailed], false⟩
    | some v2 =>
      ⟨v2, destination :: (ensureParentFolders v destination).2.1,
        (ensureParentFolders v destination).2.2, [(filePath, destination)], [],
        [NoticeMsg.archived destination], false⟩

/-- `relocateFile`: like `archiveFile`, but after a successful rename the
destination is re-resolved and, only when it is a `TFile`, its content is
passed to the frontmatter strip; the success notice is shown either way. -/
def relocateFile (rename : RenameFn) (v : Vault) (filePath destination : Path) :
    Outcome :=
  match getAbstractFileByPath v destination with
  | some _ =>
    ⟨v, [destination], [], [], [], [NoticeMsg.cannotMoveExists destination], false⟩
  | none =>
    match rename (ensureParentFolders v destination).1 filePath destination with
    | none =>
      ⟨(ensureParentFolders v destination).1,
        destination :: (ensureParentFolders v destination).2.1,
        (ensureParentFolders v destination).2.2, [(filePath, destination)], [],
        [NoticeMsg.relocateFailed], false⟩
    | some v2 =>
      match getAbstractFileByPath v2 destination with
      | some VObj.file =>
        ⟨v2, destination :: (ensureParentFolders v destination).2.1 ++ (destination :: []),
          (ensureParentFolders v destination).2.2,
          [(filePath, destination)], [destination],
          [NoticeMsg.moved destination], false⟩
      | _ =>
        ⟨v2, destination :: (ensureParentFolders v destination).2.1 ++ (destination :: []),
          (ensureParentFolders v destination).2.2,
          [(filePath, destination)], [],
          [NoticeMsg.moved destination], false⟩

/-- The plugin settings record. -/
structure Settings where
  archiveFolder : Path
  recommendedPathProperty : Path
  confirmBeforeMove : Bool
deriving DecidableEq

/-- `DEFAULT_SETTINGS`. -/
def DEFAULT_SETTINGS : Settings :=
  ⟨("90_Archive").data, ("recommended_path").data, true⟩

/-- An outcome in which nothing happened. -/
def emptyOutcome (v : Vault) : Outcome := ⟨v, [], [], [], [], [], false⟩

/-- Mark the confirmation dialog as shown. -/
def withDialog (o : Outcome) : Outcome :=
  ⟨o.vault, o.lookups, o.createdFolders, o.renameCalls, o.strips, o.notices, true⟩

/-- `handleArchive`: destination is `archiveFolder + "/" + file.path`
(never validated); behind the confirmation dialog when enabled
(`userConfirms` is the user's choice in the modal). -/
def handleArchive (rename : RenameFn) (s : Settings) (userConfirms : Bool)
    (v : Vault) (filePath : Path) : Outcome :=
  if s.confirmBeforeMove then
    if userConfirms then
      withDialog (archiveFile rename v filePath (s.archiveFolder ++ '/' :: filePath))
    else withDialog (emptyOutcome v)
  else archiveFile rename v filePath (s.archiveFolder ++ '/' :: filePath)

/-- `recommendedPath.includes(".") ? recommendedPath : recommendedPath + ".md"`. -/
def relocateDestination (recommendedPath : Path) : Path :=
  if ('.' : Char) ∈ recommendedPath then recommendedPath
  else recommendedPath ++ ('.' :: 'm' :: 'd' :: [])

/-- `handleRelocate`: compute the destination, validate it (abort with a
notice on failure, before any dialog or vault access), then run the move,
behind the confirmation dialog when enabled. -/
def handleRelocate (rename : RenameFn) (s : Settings) (userConfirms : Bool)
    (v : Vault) (filePath recommendedPath : Path) : Outcome :=
  if isValidVaultPath (relocateDestination recommendedPath) then
    if s.confirmBeforeMove then
      if userConfirms then
        withDialog (relocateFile rename v filePath (relocateDestination recommendedPath))
      else withDialog (emptyOutcome v)
    else relocateFile rename v filePath (relocateDestination recommendedPath)
  else ⟨v, [], [], [], [], [NoticeMsg.invalidPath], false⟩

/-- JS `trimStart` over the `\s` class, used to state the spec's notion of
a line whose trimmed start matches the field name. -/
def trimStart (l : List Char) : List Char := l.dropWhile jsWhitespace

/-- Modelled from the spec: the claim-C2 removal condition — a line is
removed when its trimmed start matches `<fieldName>:` literally. -/
def specLineRemoved (fieldName line : List Char) : Bool :=
  (fieldName ++ (':' :: [])).isPrefixOf (trimStart line)

/-- Modelled from the spec: the field remover as claim C2 describes it —
identical to `removeRecommendedPathProperty` except that the fenced
block's lines are filtered by `specLineRemoved` (trimmed-start match) and
the fence is reassembled literally. -/
def stripFieldSpecC2 (fieldName content : List Char) : List Char :=
  match matchFrontmatter content with
  | none => content
  | some (fmBlock, tail) =>
    let lines := splitOnChar '\n' fmBlock
    let filtered := lines.filter (fun line => ! specLineRemoved fieldName line)
    if filtered.all (fun l => l.all jsWhitespace) then
      match tail with
      | '\n' :: t => t
      | _ => tail
    else
      fenceOpen ++ List.intercalate ('\n' :: []) filtered ++ fenceClose ++ tail

/-- Modelled from the spec: claim C6's notion of a leading frontmatter
fence — the first line is exactly `---` and some later line is exactly
`---`. -/
def specHasLeadingFence (content : List Char) : Bool :=
  match splitOnChar '\n' content with
  | [] => false
  | first :: rest =>
    (first == ('-' :: '-' :: '-' :: [])) &&
      rest.any (fun l => l == ('-' :: '-' :: '-' :: []))

/-! ## Helper lemmas -/

theorem findClose_sound :
    ∀ (s b t : List Char), findClose s = some (b, t) → s = b ++ fenceClose ++ t := by
  intro s
  induction s with
  | nil => intro b t h; simp [findClose] at h
  | cons c rest ih =>
    intro b t h
    by_cases hc : c = '\n' ∧ rest.take 3 = ('-' :: '-' :: '-' :: [])
    · rw [findClose, if_pos hc] at h
      injection h with h'
      injection h' with hb ht
      subst hb
      subst ht
      obtain ⟨hc1, hc2⟩ := hc
      subst hc1
      simp only [List.nil_append, fenceClose, List.cons_append]
      conv_lhs => rw [← List.take_append_drop 3 rest]
      rw [hc2]
      simp
    · rw [findClose, if_neg hc] at h
      cases hf : findClose rest with
      | none => rw [hf] at h; simp at h
      | some p =>
        rw [hf] at h
        injection h with h'
        injection h' with hb ht
        subst hb
        subst ht
        have hrest := ih p.1 p.2 hf
        rw [hrest]
        simp

theorem matchFrontmatter_sound (content fmBlock tail : List Char)
    (h : matchFrontmatter content = some (fmBlock, tail)) :
    content = fenceOpen ++ fmBlock ++ fenceClose ++ tail := by
  rw [matchFrontmatter] at h
  split at h
  · next h4 =>
    have hfc := findClose_sound _ _ _ h
    conv_lhs => rw [← List.take_append_drop 4 content]
    rw [h4, hfc]
    simp
  · simp at h

theorem getSubstitution_no_dollar (m bf af g : List Char) :
    ∀ tmpl, ('$' : Char) ∉ tmpl → getSubstitution m bf af g tmpl = tmpl := by
  intro tmpl
  induction tmpl with
  | nil => intro _; rfl
  | cons c rest ih =>
    intro h
    rw [List.mem_cons] at h
    push_neg at h
    have hc : ¬ c = '$' := fun hh => h.1 hh.symm
    cases rest with
    | nil =>
      rw [getSubstitution, if_neg hc]
      rfl
    | cons d rest2 =>
      rw [getSubstitution, if_neg hc, ih h.2]

theorem mem_iff_exists_append {α : Type} (a : α) (l : List α) :
    a ∈ l ↔ ∃ p q, l = p ++ a :: q := by
  constructor
  · intro h
    obtain ⟨p, q, rfl⟩ := List.append_of_mem h
    exact ⟨p, q, rfl⟩
  · rintro ⟨p, q, rfl⟩
    simp

theorem colonAfterWs_iff (l : List Char) :
    colonAfterWs l = true ↔
      ∃ ws rest, (∀ c ∈ ws, jsWhitespace c = true) ∧ l = ws ++ ':' :: rest := by
  induction l with
  | nil =>
    simp only [colonAfterWs, Bool.false_eq_true, false_iff]
    rintro ⟨ws, rest, _, hws⟩
    exact absurd hws.symm (by simp)
  | cons c t ih =>
    by_cases hw : jsWhitespace c = true
    · rw [colonAfterWs, if_pos hw, ih]
      constructor
      · rintro ⟨ws, rest, hws, rfl⟩
        exact ⟨c :: ws, rest, by
          intro x hx
          rcases List.mem_cons.mp hx with h | h
          · rw [h]; exact hw
          · exact hws x h, rfl⟩
      · rintro ⟨ws, rest, hws, heq⟩
        cases ws with
        | nil =>
          injection heq with h1 _
          rw [h1] at hw
          simp [jsWhitespace] at hw
        | cons w ws' =>
          injection heq with h1 h2
          exact ⟨ws', rest, fun x hx => hws x (List.mem_cons_of_mem w hx), h2⟩
    · rw [colonAfterWs, if_neg hw]
      constructor
      · intro h
        refine ⟨[], t, ?_, ?_⟩
        · intro x hx
          exact absurd hx (List.not_mem_nil x)
        · rw [beq_iff_eq] at h
          rw [h]
          rfl
      · rintro ⟨ws, rest, hws, heq⟩
        cases ws with
        | nil =>
          injection heq with h1 h2
          rw [h1]
          decide
        | cons w ws' =>
          injection heq with h1 _
          exact absurd (h1 ▸ hws w (List.mem_cons_self w ws')) hw

theorem drivePrefixed_iff (p : Path) :
    drivePrefixed p = true ↔
      ∃ c rest, p = c :: ':' :: rest ∧
        (('a' ≤ c ∧ c ≤ 'z') ∨ ('A' ≤ c ∧ c ≤ 'Z')) := by
  match p with
  | [] =>
    simp [drivePrefixed]
  | c :: [] =>
    simp [drivePrefixed]
  | c :: d :: t =>
    rw [show drivePrefixed (c :: d :: t) = (asciiDriveLetter c && (d == ':')) from rfl]
    constructor
    · intro h
      obtain ⟨ha, hd⟩ := Bool.and_eq_true_iff.mp h
      rw [beq_iff_eq] at hd
      rw [asciiDriveLetter, decide_eq_true_eq] at ha
      exact ⟨c, t, by rw [hd], ha⟩
    · rintro ⟨c', rest, heq, hL⟩
      injection heq with h1 h2
      injection h2 with h2 h3
      subst h1
      subst h2
      subst h3
      rw [Bool.and_eq_true_iff]
      exact ⟨by rw [asciiDriveLetter, decide_eq_true_eq]; exact hL, by rfl⟩

theorem startsWithSlash_iff (p : Path) :
    startsWithSlash p = true ↔ ∃ rest, p = '/' :: rest := by
  match p with
  | [] => simp [startsWithSlash]
  | c :: t =>
    rw [show startsWithSlash (c :: t) = (c == '/') from rfl, beq_iff_eq]
    constructor
    · intro h; exact ⟨t, by rw [h]⟩
    · rintro ⟨rest, heq⟩
      simp only [List.cons.injEq] at heq
      exact heq.1

theorem isValidVaultPath_eq_true_iff (p : Path) :
    isValidVaultPath p = true ↔
      drivePrefixed p = false ∧ startsWithSlash p = false ∧
        (splitOnChar '/' (p.map backslashToSlash)).any (fun s => s == ('.' :: '.' :: [])) = false := by
  unfold isValidVaultPath
  cases h1 : drivePrefixed p <;> cases h2 : startsWithSlash p <;>
    cases h3 : (splitOnChar '/' (p.map backslashToSlash)).any (fun s => s == ('.' :: '.' :: [])) <;>
      simp [h1, h2, h3]

theorem relocateFile_renameCalls_eq (rename : RenameFn) (v : Vault)
    (filePath destination : Path) :
    ∀ pr ∈ (relocateFile rename v filePath destination).renameCalls,
      pr = (filePath, destination) := by
  intro pr hpr
  unfold relocateFile at hpr
  split at hpr
  · simp at hpr
  · split at hpr
    · simp at hpr
      exact hpr
    · split at hpr <;> (simp at hpr; exact hpr)

/-! ## Claim theorems -/

/-- Claim C4: for every string `p`, `isValidVaultPath p` returns `true` if
and only if `p` does not start with an ASCII letter followed by `:`, does
not start with `/`, and, after replacing every backslash with `/` and
splitting on `/`, no segment equals exactly `..`. -/
theorem c4_isValidVaultPath_spec (p : Path) :
    isValidVaultPath p = true ↔
      ((¬ ∃ c rest, p = c :: ':' :: rest ∧
          (('a' ≤ c ∧ c ≤ 'z') ∨ ('A' ≤ c ∧ c ≤ 'Z'))) ∧
       (¬ ∃ rest, p = '/' :: rest) ∧
       ∀ s ∈ splitOnChar '/' (p.map backslashToSlash), s ≠ ('.' :: '.' :: [])) := by
  rw [isValidVaultPath_eq_true_iff]
  constructor
  · rintro ⟨h1, h2, h3⟩
    refine ⟨?_, ?_, ?_⟩
    · intro hex
      rw [← drivePrefixed_iff] at hex
      rw [h1] at hex
      cases hex
    · intro hex
      rw [← startsWithSlash_iff] at hex
      rw [h2] at hex
      cases hex
    · intro seg hseg heq
      have hany : (splitOnChar '/' (p.map backslashToSlash)).any
          (fun s => s == ('.' :: '.' :: [])) = true :=
        List.any_eq_true.mpr ⟨seg, hseg, by rw [heq]; exact beq_self_eq_true _⟩
      rw [h3] at hany
      cases hany
  · rintro ⟨h1, h2, h3⟩
    refine ⟨?_, ?_, ?_⟩
    · cases hd : drivePrefixed p
      · rfl
      · exact absurd ((drivePrefixed_iff p).mp hd) h1
    · cases hs : startsWithSlash p
      · rfl
      · exact absurd ((startsWithSlash_iff p).mp hs) h2
    · cases ha : (splitOnChar '/' (p.map backslashToSlash)).any
          (fun s => s == ('.' :: '.' :: []))
      · rfl
      · obtain ⟨seg, hseg, hbeq⟩ := List.any_eq_true.mp ha
        rw [beq_iff_eq] at hbeq
        exact absurd hbeq (h3 seg hseg)

/-- Claim C7: the relocate destination is the frontmatter value with `.md`
appended exactly when the value contains no `.` character anywhere, and is
the value unchanged otherwise. -/
theorem c7_relocateDestination_spec (v : Path) :
    ((∃ p q, v = p ++ '.' :: q) → relocateDestination v = v) ∧
    ((¬ ∃ p q, v = p ++ '.' :: q) →
      relocateDestination v = v ++ ('.' :: 'm' :: 'd' :: [])) := by
  constructor
  · intro hex
    rw [relocateDestination, if_pos ((mem_iff_exists_append '.' v).mpr hex)]
  · intro hnex
    rw [relocateDestination,
      if_neg (fun hm => hnex ((mem_iff_exists_append '.' v).mp hm))]

/-- Witness for C7: `a.b` (contains a dot) is kept; `ab` (no dot) gets
`.md` appended. -/
theorem c7_witness :
    relocateDestination ('a' :: '.' :: 'b' :: []) = ('a' :: '.' :: 'b' :: []) ∧
    relocateDestination ('a' :: 'b' :: []) =
      ('a' :: 'b' :: '.' :: 'm' :: 'd' :: []) := by
  constructor
  · exact (c7_relocateDestination_spec _).1 ⟨('a' :: []), ('b' :: []), rfl⟩
  · refine (c7_relocateDestination_spec _).2 ?_
    rintro ⟨p, q, hpq⟩
    have hm : ('.' : Char) ∈ ('a' :: 'b' :: []) :=
      (mem_iff_exists_append '.' _).mpr ⟨p, q, hpq⟩
    exact absurd hm (by decide)

/-- Claim C2 (amended): a line of the fenced block is removed exactly when
the line itself — with no leading whitespace skipped, the pattern being
anchored at the line start — is the field name followed by optional
whitespace and a colon.  An indented occurrence is therefore NOT removed. -/
theorem c2_line_removal_condition (propName line : List Char) :
    matchesPropLine propName line = true ↔
      ∃ ws rest, (∀ c ∈ ws, jsWhitespace c = true) ∧
        line = propName ++ ws ++ ':' :: rest := by
  by_cases ht : line.take propName.length = propName
  · rw [matchesPropLine, if_pos ht, colonAfterWs_iff]
    constructor
    · rintro ⟨ws, rest, hws, hdrop⟩
      refine ⟨ws, rest, hws, ?_⟩
      conv_lhs => rw [← List.take_append_drop propName.length line]
      rw [ht, hdrop, List.append_assoc]
    · rintro ⟨ws, rest, hws, hline⟩
      refine ⟨ws, rest, hws, ?_⟩
      rw [hline, List.append_assoc]
      exact List.drop_left propName (ws ++ ':' :: rest)
  · rw [matchesPropLine, if_neg ht]
    constructor
    · intro hf
      cases hf
    · rintro ⟨ws, rest, _, hline⟩
      exfalso
      apply ht
      rw [hline, List.append_assoc]
      exact List.take_left propName (ws ++ ':' :: rest)

/-- Counterexample for C2 as stated: on a fenced document containing the
indented line ` a: x`, the spec's trimmed-start rule removes the line, but
the code's regex is anchored at the line start, keeps it, and returns the
document unchanged; the spec-modelled remover differs. -/
theorem c2_counterexample :
    specLineRemoved ('a' :: []) (' ' :: 'a' :: ':' :: ' ' :: 'x' :: []) = true ∧
    removeRecommendedPathProperty ('a' :: []) (("---\n a: x\nb: y\n---\nz").data) =
      ("---\n a: x\nb: y\n---\nz").data ∧
    stripFieldSpecC2 ('a' :: []) (("---\n a: x\nb: y\n---\nz").data) =
      ("---\nb: y\n---\nz").data := by
  exact ⟨by decide, by decide, by decide⟩

/-- Claim C3 (amended): when the filtered block is not all-blank AND the
joined surviving lines contain no `$` character (the code passes them
through JS `String.replace` substitution), the remover reassembles the
fence from exactly the filtered lines in their original relative order and
leaves everything after the closing fence — `tail`, including any later
`---`-delimited text — untouched. -/
theorem c3_reassembly_frame (propName content fmBlock tail : List Char)
    (hm : matchFrontmatter content = some (fmBlock, tail))
    (hnb : ((splitOnChar '\n' fmBlock).filter
        (fun line => ! matchesPropLine propName line)).all
        (fun l => l.all jsWhitespace) = false)
    (hd : ('$' : Char) ∉ List.intercalate ('\n' :: [])
        ((splitOnChar '\n' fmBlock).filter
          (fun line => ! matchesPropLine propName line))) :
    removeRecommendedPathProperty propName content =
      fenceOpen ++
        List.intercalate ('\n' :: [])
          ((splitOnChar '\n' fmBlock).filter
            (fun line => ! matchesPropLine propName line)) ++
        fenceClose ++ tail := by
  rw [removeRecommendedPathProperty.eq_def, hm]
  dsimp only
  rw [hnb]
  simp only [Bool.false_eq_true, if_false]
  rw [getSubstitution_no_dollar]
  intro hmem
  rcases List.mem_append.mp hmem with hmem | hmem
  · rcases List.mem_append.mp hmem with hmem | hmem
    · exact absurd hmem (by decide)
    · exact hd hmem
  · exact absurd hmem (by decide)

/-- Witness for C3 (amended) at the spec's own example: stripping `rp`
from a two-field frontmatter keeps the other line and the body. -/
theorem c3_witness :
    removeRecommendedPathProperty (("rp").data)
        (("---\nrp: x\ntags: t\n---\nbody").data) =
      ("---\ntags: t\n---\nbody").data :=
  c3_reassembly_frame (("rp").data) (("---\nrp: x\ntags: t\n---\nbody").data)
    (("rp: x\ntags: t").data) (("\nbody").data)
    (by decide) (by decide) (by decide)

/-- Counterexample for C3 as stated: on the fenced document
`---\na$&\n---\nbody` with field `x` nothing is filtered, so the claim
demands the document back unchanged; the code's replacement string goes
through JS `$`-substitution, `$&` expands to the whole matched fence, and
the output duplicates text instead. -/
theorem c3_counterexample :
    removeRecommendedPathProperty ('x' :: []) (("---\na$&\n---\nbody").data) =
      ("---\na---\na$&\n---\n---\nbody").data ∧
    ("---\na---\na$&\n---\n---\nbody").data ≠ ("---\na$&\n---\nbody").data := by
  exact ⟨by decide, by decide⟩

/-- Claim C5: when every line of the filtered block is blank or
whitespace-only, the remover deletes the entire fence — the document is
the opening delimiter, the block, the closing delimiter, then `tail` —
plus exactly one trailing newline of `tail` if one is present, leaving
only the body. -/
theorem c5_blank_block_removes_fence (propName content fmBlock tail : List Char)
    (hm : matchFrontmatter content = some (fmBlock, tail))
    (hb : ((splitOnChar '\n' fmBlock).filter
        (fun line => ! matchesPropLine propName line)).all
        (fun l => l.all jsWhitespace) = true) :
    content = fenceOpen ++ fmBlock ++ fenceClose ++ tail ∧
    ((∀ t, tail ≠ '\n' :: t) →
      removeRecommendedPathProperty propName content = tail) ∧
    (∀ t, tail = '\n' :: t →
      removeRecommendedPathProperty propName content = t) := by
  refine ⟨matchFrontmatter_sound _ _ _ hm, ?_, ?_⟩
  · intro ht
    rw [removeRecommendedPathProperty.eq_def, hm]
    dsimp only
    rw [hb]
    simp only [if_true]
  · intro t ht
    subst ht
    rw [removeRecommendedPathProperty.eq_def, hm]
    dsimp only
    rw [hb]
    simp only [if_true]

/-- Witness for C5 at the spec's own example: a frontmatter containing
only the target field collapses entirely, leaving just the body. -/
theorem c5_witness :
    removeRecommendedPathProperty (("recommended_path").data)
        (("---\nrecommended_path: x\n---\nbody text").data) =
      ("body text").data :=
  (c5_blank_block_removes_fence (("recommended_path").data)
    (("---\nrecommended_path: x\n---\nbody text").data)
    (("recommended_path: x").data) (("\nbody text").data)
    (by decide) (by decide)).2.2 (("body text").data) rfl

/-- Claim C6 (amended): the remover is the identity exactly when the
code's fence regex has no match — that is, whenever the document does not
decompose as `---` + newline + block + newline + `---` + rest, where the
closing `---` need only be a line prefix, not a whole line. -/
theorem c6_no_fence_identity (propName content : List Char)
    (h : ∀ fmBlock tail, content ≠ fenceOpen ++ fmBlock ++ fenceClose ++ tail) :
    removeRecommendedPathProperty propName content = content := by
  cases hm : matchFrontmatter content with
  | none => rw [removeRecommendedPathProperty.eq_def, hm]
  | some p =>
    have hs := matchFrontmatter_sound content p.1 p.2 (by rw [hm])
    exact absurd hs (h p.1 p.2)

/-- Witness for C6 (amended): a document with no fence at all is returned
unchanged. -/
theorem c6_witness :
    removeRecommendedPathProperty (("recommended_path").data) (("body").data) =
      ("body").data := by
  apply c6_no_fence_identity
  intro fmBlock tail hEq
  have h4 := congrArg (List.take 4) hEq
  rw [show (4 : Nat) = fenceOpen.length from rfl] at h4
  simp only [List.append_assoc] at h4
  rw [List.take_left] at h4
  exact absurd h4 (by decide)

/-- Counterexample for C6 as stated: `---\na: b\n---x` has no closing line
`---` (its third line is `---x`), so the claim requires the remover to be
the identity on it; but the code's regex accepts `---` as a line prefix,
matches, and stripping field `a` collapses the fence to `x`. -/
theorem c6_counterexample :
    specHasLeadingFence (("---\na: b\n---x").data) = false ∧
    removeRecommendedPathProperty ('a' :: []) (("---\na: b\n---x").data) =
      ('x' :: []) ∧
    ('x' :: []) ≠ ("---\na: b\n---x").data := by
  exact ⟨by decide, by decide, by decide⟩

/-- Claim C8: when the existence lookup finds a file object at the
destination, both move procedures abort after the error notice, with the
vault unchanged, no folder creation, no rename, no strip, and only the
initial existence lookup performed. -/
theorem c8_destination_exists_aborts (rename : RenameFn) (v : Vault)
    (filePath destination : Path)
    (h : getAbstractFileByPath v destination = some VObj.file) :
    archiveFile rename v filePath destination =
      ⟨v, (destination :: []), [], [], [],
        (NoticeMsg.cannotArchiveExists destination :: []), false⟩ ∧
    relocateFile rename v filePath destination =
      ⟨v, (destination :: []), [], [], [],
        (NoticeMsg.cannotMoveExists destination :: []), false⟩ := by
  constructor
  · rw [archiveFile.eq_def, h]
  · rw [relocateFile.eq_def, h]

/-- Witness for C8: with a file already at `d`, archiving or relocating
`s` onto `d` changes nothing and only reports the error. -/
theorem c8_witness :
    archiveFile idealRename ((('d' :: []), VObj.file) :: []) ('s' :: []) ('d' :: []) =
      ⟨((('d' :: []), VObj.file) :: []), (('d' :: []) :: []), [], [], [],
        (NoticeMsg.cannotArchiveExists ('d' :: []) :: []), false⟩ ∧
    relocateFile idealRename ((('d' :: []), VObj.file) :: []) ('s' :: []) ('d' :: []) =
      ⟨((('d' :: []), VObj.file) :: []), (('d' :: []) :: []), [], [], [],
        (NoticeMsg.cannotMoveExists ('d' :: []) :: []), false⟩ :=
  c8_destination_exists_aborts idealRename ((('d' :: []), VObj.file) :: [])
    ('s' :: []) ('d' :: []) (by decide)

/-- Claim C9: a relocate request whose computed destination fails
validation produces only the error notice: the vault is unchanged and no
dialog, no lookup, no folder creation, no rename and no strip happen. -/
theorem c9_invalid_path_aborts (rename : RenameFn) (s : Settings)
    (userConfirms : Bool) (v : Vault) (filePath recommendedPath : Path)
    (h : isValidVaultPath (relocateDestination recommendedPath) = false) :
    handleRelocate rename s userConfirms v filePath recommendedPath =
      ⟨v, [], [], [], [], (NoticeMsg.invalidPath :: []), false⟩ := by
  rw [handleRelocate.eq_def, h]
  simp

/-- Witness for C9: relocating to frontmatter value `../x.md` aborts with
the invalid-path notice and nothing else. -/
theorem c9_witness :
    handleRelocate idealRename DEFAULT_SETTINGS true [] ('a' :: [])
        (("../x.md").data) =
      ⟨[], [], [], [], [], (NoticeMsg.invalidPath :: []), false⟩ :=
  c9_invalid_path_aborts idealRename DEFAULT_SETTINGS true [] ('a' :: [])
    (("../x.md").data) (by decide)

/-- Claim C10: in a relocate move where the existence check passes and the
rename succeeds, if re-resolving the destination yields nothing or a
non-file object then the frontmatter strip is silently skipped while the
success notice with the destination path is still shown. -/
theorem c10_missing_file_skips_strip (rename : RenameFn) (v : Vault)
    (filePath destination : Path) (v2 : Vault)
    (h1 : getAbstractFileByPath v destination = none)
    (h2 : rename (ensureParentFolders v destination).1 filePath destination =
      some v2)
    (h3 : ∀ o, getAbstractFileByPath v2 destination = some o → o = VObj.folder) :
    (relocateFile rename v filePath destination).strips = [] ∧
    NoticeMsg.moved destination ∈
      (relocateFile rename v filePath destination).notices := by
  rw [relocateFile.eq_def, h1]
  dsimp only
  rw [h2]
  dsimp only
  cases hL : getAbstractFileByPath v2 destination with
  | none => exact ⟨rfl, by simp⟩
  | some o =>
    have ho := h3 o hL
    subst ho
    exact ⟨rfl, by simp⟩

/-- Witness for C10: a host rename that leaves a folder at the destination
makes the strip a no-op while the success notice still appears. -/
theorem c10_witness :
    (relocateFile strayRename [] ('a' :: []) ('b' :: [])).strips = [] ∧
    NoticeMsg.moved ('b' :: []) ∈
      (relocateFile strayRename [] ('a' :: []) ('b' :: [])).notices :=
  c10_missing_file_skips_strip strayRename [] ('a' :: []) ('b' :: [])
    (((('b' :: []) : Path), VObj.folder) :: []) (by decide) (by decide)
    (by intro o ho; exact (Option.some.inj ho).symm)

/-- Counterexample for C1 as stated: with the archive-folder setting `..`,
archiving `N.md` (no confirmation) reaches the rename step with
destination `../N.md`, whose first segment is `..` — the claimed invariant
fails for archive moves, whose destination is never validated. -/
theorem c1_counterexample :
    (handleArchive idealRename ⟨("..").data, ("recommended_path").data, false⟩
        true [] (("N.md").data)).renameCalls =
      (((("N.md").data), (("../N.md").data)) :: []) ∧
    ('.' :: '.' :: []) ∈
      splitOnChar '/' ((("../N.md").data).map backslashToSlash) := by
  exact ⟨by decide, by decide⟩

/-- Claim C1 (amended): for every relocate move, every destination passed
to the rename primitive starts with neither `/` nor a drive-letter prefix
and contains no `..` segment; archive destinations are the unvalidated
concatenation of the archive-folder setting and the file path, for which
the invariant can fail. -/
theorem c1_relocate_rename_invariant (rename : RenameFn) (s : Settings)
    (userConfirms : Bool) (v : Vault) (filePath recommendedPath : Path) :
    ∀ pr ∈ (handleRelocate rename s userConfirms v filePath
        recommendedPath).renameCalls,
      startsWithSlash pr.2 = false ∧ drivePrefixed pr.2 = false ∧
        ('.' :: '.' :: []) ∉ splitOnChar '/' (pr.2.map backslashToSlash) := by
  intro pr hpr
  unfold handleRelocate at hpr
  split at hpr
  · next hval =>
    have hv := (isValidVaultPath_eq_true_iff _).mp hval
    have key : ∀ q ∈ (relocateFile rename v filePath
        (relocateDestination recommendedPath)).renameCalls,
        startsWithSlash q.2 = false ∧ drivePrefixed q.2 = false ∧
          ('.' :: '.' :: []) ∉ splitOnChar '/' (q.2.map backslashToSlash) := by
      intro q hq
      rw [relocateFile_renameCalls_eq _ _ _ _ q hq]
      dsimp only
      refine ⟨hv.2.1, hv.1, ?_⟩
      intro hmem
      have hany : ((splitOnChar '/'
          ((relocateDestination recommendedPath).map backslashToSlash)).any
          (fun s => s == ('.' :: '.' :: []))) = true :=
        List.any_eq_true.mpr ⟨_, hmem, beq_self_eq_true _⟩
      rw [hv.2.2] at hany
      cases hany
    split at hpr
    · split at hpr
      · exact key pr (by simpa [withDialog] using hpr)
      · simp [withDialog, emptyOutcome] at hpr
    · exact key pr hpr
  · simp at hpr

/-- Witness for C1 (amended): the rename call of a plain relocate to
`b.md` satisfies all three invariant parts. -/
theorem c1_witness :
    startsWithSlash (("b.md").data) = false ∧
    drivePrefixed (("b.md").data) = false ∧
    ('.' :: '.' :: []) ∉
      splitOnChar '/' ((("b.md").data).map backslashToSlash) :=
  c1_relocate_rename_invariant idealRename DEFAULT_SETTINGS true []
    (("a.md").data) (("b.md").data) (((("a.md").data), (("b.md").data)))
    (by decide)

end FileMover
